import Mathlib

/-!
Shallow embedding of the MCP demo chatbot (client-openai.py, server.py):
the tool-result normalization, the tool-registry schema conversion, the
process_query orchestration loop, the chat_loop interactive session, and
the server's search_papers store update.
-/

namespace MCPDemo

/-! ## Content model for MCP tool results (client-openai.py lines 58-67)

A provider result's `content` is either a list of content items or some
other value that `str()` coerces to text.  A content item either exposes a
`text` attribute, or is a dict with a `"text"` key, or exposes no text. -/

inductive ContentItem
  | textAttr (t : String)
  | textDict (t : String)
  | noText
deriving DecidableEq, Repr

inductive MCPContent
  | items (l : List ContentItem)
  | other (s : String)
deriving DecidableEq, Repr

/-- The result object returned by `session.call_tool`, with its `content`
field. -/
structure ToolCallResult where
  content : MCPContent
deriving DecidableEq, Repr

/-- Accumulating loop of lines 59-65: `tool_result_content = ""` followed by
`for item in result.content`, appending `item.text` when the item has a
`text` attribute, `item["text"]` when the item is a dict with a `"text"` key,
and nothing otherwise. -/
def extractLoop : String → List ContentItem → String
  | acc, [] => acc
  | acc, ContentItem.textAttr t :: rest => extractLoop (acc ++ t) rest
  | acc, ContentItem.textDict t :: rest => extractLoop (acc ++ t) rest
  | acc, ContentItem.noText :: rest => extractLoop acc rest

/-- Lines 58-67: extract the normalized text payload of a provider result. -/
def extractText : MCPContent → String
  | MCPContent.items l => extractLoop "" l
  | MCPContent.other s => s

/-- The text a content item exposes, if any. -/
def itemText : ContentItem → Option String
  | ContentItem.textAttr t => some t
  | ContentItem.textDict t => some t
  | ContentItem.noText => none

/-- Modelled from the spec: "concatenate the text of every item that exposes
text content, in order, with no separator; items without text content are
skipped silently." -/
def specConcatTexts : List ContentItem → String
  | [] => ""
  | item :: rest =>
    (match itemText item with
     | some t => t
     | none => "") ++ specConcatTexts rest

theorem extractLoop_eq_append (l : List ContentItem) :
    ∀ acc, extractLoop acc l = acc ++ specConcatTexts l := by
  induction l with
  | nil =>
    intro acc
    simp [extractLoop, specConcatTexts]
  | cons item rest ih =>
    intro acc
    cases item <;>
      simp [extractLoop, specConcatTexts, itemText, ih, String.append_assoc]

/-- C1: the Tool Invoker's normalized text of a sequence result is the
separator-free, order-preserving concatenation of the texts of exactly the
items that expose text content; a non-sequence result normalizes to its
textual representation. -/
theorem extractText_normalization :
    (∀ l, extractText (MCPContent.items l) = specConcatTexts l) ∧
    (∀ s, extractText (MCPContent.other s) = s) := by
  constructor
  · intro l
    simpa using extractLoop_eq_append l ""
  · intro s
    rfl

/-! ## Conversation turns and the model-backend interface -/

/-- A tool call emitted by the model (`tool_call.id`,
`tool_call.function.name`, `tool_call.function.arguments`).  The JSON
argument decoding is kept abstract: `arguments` is the argument payload
handed to the provider. -/
structure ToolCall where
  id : String
  name : String
  arguments : String
deriving DecidableEq, Repr

/-- One model response message (`response.choices[0].message`): optional
text content and the (possibly empty) ordered tool-call list. -/
structure ModelMessage where
  content : Option String
  tool_calls : List ToolCall
deriving DecidableEq, Repr

/-- One entry of the `messages` list: the `role` dicts built at lines 23,
37-43 and 70-76. -/
inductive Msg
  | user (content : String)
  | assistant (content : Option String) (tool_calls : List ToolCall)
  | tool (tool_call_id : String) (content : String)
deriving DecidableEq, Repr

/-- OpenAI function-calling schema entry: the inner `function` dict of
lines 133-137. -/
structure FunctionSpec where
  name : String
  description : String
  parameters : String
deriving DecidableEq, Repr

/-- OpenAI function-calling schema entry: the outer dict of lines 131-138. -/
structure OpenAITool where
  type : String
  function : FunctionSpec
deriving DecidableEq, Repr

/-- A tool descriptor from the provider's `list_tools` response
(`tool.name`, `tool.description`, `tool.inputSchema`); the input schema is
carried opaquely. -/
structure ToolDescriptor where
  name : String
  description : String
  inputSchema : String
deriving DecidableEq, Repr

/-- Lines 130-140: the comprehension converting MCP tool descriptors to the
OpenAI function-calling format. -/
def toSchema (tools : List ToolDescriptor) : List OpenAITool :=
  tools.map fun tool =>
    { type := "function"
      function :=
        { name := tool.name
          description := tool.description
          parameters := tool.inputSchema } }

/-- The model backend: `client.chat.completions.create` applied to the tool
schema and the message list; it may fail (raise). -/
abbrev Backend := List OpenAITool → List Msg → Except String ModelMessage

/-- The provider's tool-execution capability: `session.call_tool(name,
arguments)`; it may fail (raise). -/
abbrev CallTool := String → String → Except String ToolCallResult

/-! ## The orchestration loop (process_query, lines 22-88) -/

/-- Outcome of a fuel-bounded run: finished normally, aborted by an
uncaught exception, or fuel exhausted (the source's `while` loop is
unbounded). -/
inductive Outcome (α : Type)
  | done (r : α)
  | raised (e : String)
  | outOfFuel
deriving DecidableEq, Repr

/-- Observable result of one `process_query` run: the final `messages`
list, the text printed as the final answer (line 87, empty when the final
message has no truthy content), the number of model calls made, and the
(name, arguments) pairs of the tool invocations in invocation order. -/
structure QueryResult where
  messages : List Msg
  printed : List String
  rounds : Nat
  invoked : List (String × String)
deriving DecidableEq, Repr

/-- Lines 46-76: the `for tool_call in message.tool_calls` loop.  Each
call is dispatched via the session; an exception aborts the whole loop
(there is no try/except in `process_query`); on success a `role: tool`
message with the call's id and the normalized text is appended. -/
def execToolCalls (ct : CallTool) :
    List Msg → List (String × String) → List ToolCall →
    Except String (List Msg × List (String × String))
  | msgs, inv, [] => Except.ok (msgs, inv)
  | msgs, inv, tc :: rest =>
    match ct tc.name tc.arguments with
    | Except.error e => Except.error e
    | Except.ok result =>
      execToolCalls ct (msgs ++ [Msg.tool tc.id (extractText result.content)])
        (inv ++ [(tc.name, tc.arguments)]) rest

/-- Line 86-87: `if message.content: print(message.content)` — the list of
texts surfaced as the final answer. -/
def printedOf (content : Option String) : List String :=
  match content with
  | some c => if c = "" then [] else [c]
  | none => []

/-- Lines 30-88: the `while process_query` loop, fuel-bounded.  `rounds`
counts the model calls already made, `inv` the tool invocations so far. -/
def processFrom (backend : Backend) (ct : CallTool) (tools : List OpenAITool) :
    Nat → List Msg → ModelMessage → Nat → List (String × String) →
    Outcome QueryResult
  | 0, _, _, _, _ => Outcome.outOfFuel
  | fuel + 1, msgs, message, rounds, inv =>
    if message.tool_calls ≠ [] then
      match execToolCalls ct
          (msgs ++ [Msg.assistant message.content message.tool_calls]) inv
          message.tool_calls with
      | Except.error e => Outcome.raised e
      | Except.ok (msgs2, inv2) =>
        match backend tools msgs2 with
        | Except.error e => Outcome.raised e
        | Except.ok resp =>
          processFrom backend ct tools fuel msgs2 resp (rounds + 1) inv2
    else
      Outcome.done ⟨msgs, printedOf message.content, rounds, inv⟩

/-- Lines 22-88: `process_query` — seed `messages` with the user query,
make the initial model call, then run the loop. -/
def process_query (backend : Backend) (ct : CallTool) (tools : List OpenAITool)
    (fuel : Nat) (query : String) : Outcome QueryResult :=
  match backend tools [Msg.user query] with
  | Except.error e => Outcome.raised e
  | Except.ok resp => processFrom backend ct tools fuel [Msg.user query] resp 1 []

/-! ## The interactive session (chat_loop, lines 90-106) -/

/-- Python whitespace characters stripped by `str.strip()`. -/
def isPySpace (c : Char) : Bool :=
  c = ' ' || c = '\t' || c = '\n' || c = '\r' || c = Char.ofNat 11 || c = Char.ofNat 12

/-- Python `str.strip()`: drop whitespace from both ends. -/
def pyStrip (s : String) : String :=
  String.mk (((s.data.dropWhile isPySpace).reverse.dropWhile isPySpace).reverse)

/-- Python `str.lower()` (ASCII case folding). -/
def pyLower (s : String) : String :=
  String.mk (s.data.map Char.toLower)

/-- What one iteration of the interactive loop did with a processed query:
either `process_query` completed, or it raised and the `except` branch at
lines 105-106 printed the error text. -/
inductive QueryTrace
  | completed (query : String) (r : QueryResult)
  | errored (query : String) (message : String)
deriving DecidableEq, Repr

/-- Lines 95-106: the interactive loop over a list of input lines.  Each
line is stripped; a (case-insensitive) `quit` breaks out; otherwise the
stripped line is processed as a query, and any exception from
`process_query` is caught per query, printing `\nError: ...` and
continuing with the next line. -/
def chat_loop (backend : Backend) (ct : CallTool) (tools : List OpenAITool)
    (fuel : Nat) : List String → Outcome (List QueryTrace)
  | [] => Outcome.done []
  | line :: rest =>
    let query := pyStrip line
    if pyLower query = "quit" then Outcome.done []
    else
      match process_query backend ct tools fuel query with
      | Outcome.done r =>
        match chat_loop backend ct tools fuel rest with
        | Outcome.done t => Outcome.done (QueryTrace.completed query r :: t)
        | x => x
      | Outcome.raised e =>
        match chat_loop backend ct tools fuel rest with
        | Outcome.done t => Outcome.done (QueryTrace.errored query ("\nError: " ++ e) :: t)
        | x => x
      | Outcome.outOfFuel => Outcome.outOfFuel

/-! ## The server's search_papers store update (server.py, lines 44-70) -/

/-- One stored paper record (server.py lines 55-61). -/
structure PaperInfo where
  title : String
  authors : List String
  summary : String
  pdf_url : String
  published : String
deriving DecidableEq, Repr

/-- One paper as fetched from arXiv, with its `get_short_id()`. -/
structure ArxivPaper where
  short_id : String
  title : String
  authors : List String
  summary : String
  pdf_url : String
  published : String
deriving DecidableEq, Repr

/-- The record stored for a fetched paper (lines 55-61). -/
def paperRecord (p : ArxivPaper) : PaperInfo :=
  { title := p.title
    authors := p.authors
    summary := p.summary
    pdf_url := p.pdf_url
    published := p.published }

/-- Python dict assignment `d[k] = v` on an association list whose keys
are unique: replace in place when the key is present, append otherwise
(insertion order preserved). -/
def dictInsert : List (String × PaperInfo) → String → PaperInfo →
    List (String × PaperInfo)
  | [], k, v => [(k, v)]
  | p :: rest, k, v =>
    if p.1 = k then (k, v) :: rest else p :: dictInsert rest k v

/-- Dict lookup `d.get(k)`. -/
def dictGet : List (String × PaperInfo) → String → Option PaperInfo
  | [], _ => none
  | p :: rest, k => if p.1 = k then some p.2 else dictGet rest k

/-- Lines 52-62: the `for paper in papers` loop, accumulating `paper_ids`
and updating `papers_info`. -/
def searchLoop : List (String × PaperInfo) → List String → List ArxivPaper →
    List (String × PaperInfo) × List String
  | info, ids, [] => (info, ids)
  | info, ids, p :: rest =>
    searchLoop (dictInsert info p.short_id (paperRecord p)) (ids ++ [p.short_id]) rest

/-- Lines 44-70 of server.py: `search_papers`, with the filesystem
abstracted to the loaded store (`papers_info` read at lines 45-49, `{}` on
a missing or corrupt file) and the written store.  Returns the written
store and the list of fetched paper ids. -/
def search_papers (papers : List ArxivPaper) (papers_info : List (String × PaperInfo)) :
    List (String × PaperInfo) × List String :=
  searchLoop papers_info [] papers

/-! ## Conversation invariants: request/result correlation and ordering -/

/-- Scanning a message list left to right while remembering the tool-call
ids already emitted by assistant turns, check that every `role: tool`
message's id was previously requested. -/
def wellCorrelatedAux : List String → List Msg → Bool
  | _, [] => true
  | seen, Msg.user _ :: rest => wellCorrelatedAux seen rest
  | seen, Msg.assistant _ tcs :: rest =>
    wellCorrelatedAux (seen ++ tcs.map (fun tc => tc.id)) rest
  | seen, Msg.tool i _ :: rest => seen.contains i && wellCorrelatedAux seen rest

/-- Every tool-result message's id matches a tool request previously
emitted by an assistant message in the same conversation. -/
def wellCorrelated (msgs : List Msg) : Bool := wellCorrelatedAux [] msgs

/-- Scanning a message list with the ids of the current round's still
pending tool calls: after an assistant turn requesting calls, the tool
results must follow immediately, completely and in the requested order. -/
def resultsOrderedAux : List String → List Msg → Bool
  | pending, [] => pending.isEmpty
  | pending, m :: rest =>
    match pending, m with
    | [], Msg.user _ => resultsOrderedAux [] rest
    | [], Msg.assistant _ tcs => resultsOrderedAux (tcs.map (fun tc => tc.id)) rest
    | [], Msg.tool _ _ => false
    | i :: ids, Msg.tool i2 _ => i == i2 && resultsOrderedAux ids rest
    | _ :: _, _ => false

/-- Each round's tool results appear right after the requesting assistant
turn, in the request order. -/
def resultsOrdered (msgs : List Msg) : Bool := resultsOrderedAux [] msgs

/-- The (name, arguments) pairs of all tool calls emitted by assistant
turns, in conversation order. -/
def emittedCalls : List Msg → List (String × String)
  | [] => []
  | Msg.assistant _ tcs :: rest =>
    tcs.map (fun tc => (tc.name, tc.arguments)) ++ emittedCalls rest
  | Msg.user _ :: rest => emittedCalls rest
  | Msg.tool _ _ :: rest => emittedCalls rest

/-- The tool-result messages a fully successful round over `tcs` appends. -/
def roundToolMsgs (ct : CallTool) (tcs : List ToolCall) : List Msg :=
  tcs.map (fun tc =>
    Msg.tool tc.id
      (match ct tc.name tc.arguments with
       | Except.ok result => extractText result.content
       | Except.error e => e))

/-- Shape of the messages a completed `processFrom` run appends: a series
of rounds, each an assistant turn with a nonempty tool-call list followed
by exactly its tool results. -/
inductive RoundsShape (ct : CallTool) : List Msg → Prop
  | nil : RoundsShape ct []
  | round (oc : Option String) (tcs : List ToolCall) (rest : List Msg)
      (hne : tcs ≠ []) (h : RoundsShape ct rest) :
      RoundsShape ct (Msg.assistant oc tcs :: (roundToolMsgs ct tcs ++ rest))

theorem processFrom_succ (backend : Backend) (ct : CallTool) (tools : List OpenAITool)
    (fuel : Nat) (msgs : List Msg) (message : ModelMessage) (rounds : Nat)
    (inv : List (String × String)) :
    processFrom backend ct tools (fuel + 1) msgs message rounds inv =
      if message.tool_calls ≠ [] then
        match execToolCalls ct
            (msgs ++ [Msg.assistant message.content message.tool_calls]) inv
            message.tool_calls with
        | Except.error e => Outcome.raised e
        | Except.ok (msgs2, inv2) =>
          match backend tools msgs2 with
          | Except.error e => Outcome.raised e
          | Except.ok resp =>
            processFrom backend ct tools fuel msgs2 resp (rounds + 1) inv2
      else Outcome.done ⟨msgs, printedOf message.content, rounds, inv⟩ := rfl

theorem execToolCalls_ok_shape (ct : CallTool) :
    ∀ tcs msgs inv out, execToolCalls ct msgs inv tcs = Except.ok out →
      out.1 = msgs ++ roundToolMsgs ct tcs ∧
      out.2 = inv ++ tcs.map (fun tc => (tc.name, tc.arguments)) := by
  intro tcs
  induction tcs with
  | nil =>
    intro msgs inv out h
    simp only [execToolCalls] at h
    cases h
    simp [roundToolMsgs]
  | cons tc rest ih =>
    intro msgs inv out h
    simp only [execToolCalls] at h
    cases hct : ct tc.name tc.arguments with
    | error e => rw [hct] at h; cases h
    | ok result =>
      rw [hct] at h
      have hrec := ih _ _ _ h
      refine ⟨?_, ?_⟩
      · rw [hrec.1]
        simp [roundToolMsgs, hct]
      · rw [hrec.2]
        simp

theorem emittedCalls_append (a b : List Msg) :
    emittedCalls (a ++ b) = emittedCalls a ++ emittedCalls b := by
  induction a with
  | nil => simp [emittedCalls]
  | cons m rest ih => cases m <;> simp [emittedCalls, ih]

theorem emittedCalls_roundToolMsgs (ct : CallTool) (tcs : List ToolCall) :
    emittedCalls (roundToolMsgs ct tcs) = [] := by
  induction tcs with
  | nil => rfl
  | cons tc rest ih => simpa [roundToolMsgs, emittedCalls] using ih

theorem processFrom_done_shape (backend : Backend) (ct : CallTool)
    (tools : List OpenAITool) :
    ∀ fuel msgs resp rounds inv r,
      processFrom backend ct tools fuel msgs resp rounds inv = Outcome.done r →
      ∃ tail, RoundsShape ct tail ∧ r.messages = msgs ++ tail ∧
        r.invoked = inv ++ emittedCalls tail := by
  intro fuel
  induction fuel with
  | zero => intro msgs resp rounds inv r h; cases h
  | succ fuel ih =>
    intro msgs resp rounds inv r h
    simp only [processFrom] at h
    split at h
    · -- tool-call branch
      rename_i hne
      cases hexec : execToolCalls ct
          (msgs ++ [Msg.assistant resp.content resp.tool_calls]) inv
          resp.tool_calls with
      | error e => rw [hexec] at h; cases h
      | ok out =>
        rw [hexec] at h
        obtain ⟨msgs2, inv2⟩ := out
        dsimp only at h
        cases hb : backend tools msgs2 with
        | error e => rw [hb] at h; cases h
        | ok resp2 =>
          rw [hb] at h
          obtain ⟨tail', hsh, hm, hi⟩ := ih _ _ _ _ _ h
          obtain ⟨hs1, hs2⟩ := execToolCalls_ok_shape ct _ _ _ _ hexec
          simp only at hs1 hs2
          refine ⟨Msg.assistant resp.content resp.tool_calls ::
            (roundToolMsgs ct resp.tool_calls ++ tail'), ?_, ?_, ?_⟩
          · exact RoundsShape.round _ _ _ hne hsh
          · rw [hm, hs1]
            simp
          · rw [hi, hs2]
            simp [emittedCalls, emittedCalls_append, emittedCalls_roundToolMsgs]
    · -- no tool calls: done
      cases h
      exact ⟨[], RoundsShape.nil, by simp, by simp [emittedCalls]⟩

theorem process_query_done_shape (backend : Backend) (ct : CallTool)
    (tools : List OpenAITool) (fuel : Nat) (q : String) (r : QueryResult)
    (h : process_query backend ct tools fuel q = Outcome.done r) :
    ∃ tail, RoundsShape ct tail ∧ r.messages = Msg.user q :: tail ∧
      r.invoked = emittedCalls tail := by
  unfold process_query at h
  cases hb : backend tools [Msg.user q] with
  | error e => rw [hb] at h; cases h
  | ok resp =>
    rw [hb] at h
    obtain ⟨tail, hsh, hm, hi⟩ := processFrom_done_shape backend ct tools _ _ _ _ _ _ h
    exact ⟨tail, hsh, by simpa using hm, by simpa using hi⟩

theorem wellCorrelatedAux_toolMsgs (ct : CallTool) :
    ∀ tcs S rest, (∀ tc ∈ tcs, S.contains tc.id = true) →
      wellCorrelatedAux S (roundToolMsgs ct tcs ++ rest) = wellCorrelatedAux S rest := by
  intro tcs
  induction tcs with
  | nil => intro S rest _; rfl
  | cons tc rest2 ih =>
    intro S rest hall
    have hhd : S.contains tc.id = true := hall tc (List.mem_cons_self tc rest2)
    simp only [roundToolMsgs, List.map_cons, List.cons_append, wellCorrelatedAux, hhd,
      Bool.true_and]
    exact ih S rest (fun tc2 htc2 => hall tc2 (List.mem_cons_of_mem tc htc2))

theorem wellCorrelatedAux_rounds (ct : CallTool) :
    ∀ tail, RoundsShape ct tail → ∀ seen, wellCorrelatedAux seen tail = true := by
  intro tail h
  induction h with
  | nil => intro seen; rfl
  | round oc tcs rest hne hsh ih =>
    intro seen
    show wellCorrelatedAux seen (Msg.assistant oc tcs :: (roundToolMsgs ct tcs ++ rest)) = true
    rw [wellCorrelatedAux, wellCorrelatedAux_toolMsgs]
    · exact ih _
    · intro tc htc
      exact List.elem_eq_true_of_mem
        (List.mem_append_right seen (List.mem_map_of_mem (fun tc => tc.id) htc))

theorem resultsOrderedAux_toolMsgs (ct : CallTool) :
    ∀ tcs rest, resultsOrderedAux (tcs.map (fun tc => tc.id)) (roundToolMsgs ct tcs ++ rest) =
      resultsOrderedAux [] rest := by
  intro tcs
  induction tcs with
  | nil => intro rest; rfl
  | cons tc rest2 ih =>
    intro rest
    simp only [roundToolMsgs, List.map_cons, List.cons_append, List.append_eq,
      resultsOrderedAux, beq_self_eq_true, Bool.true_and]
    exact ih rest

theorem resultsOrderedAux_rounds (ct : CallTool) :
    ∀ tail, RoundsShape ct tail → resultsOrderedAux [] tail = true := by
  intro tail h
  induction h with
  | nil => rfl
  | round oc tcs rest hne hsh ih =>
    show resultsOrderedAux [] (Msg.assistant oc tcs :: (roundToolMsgs ct tcs ++ rest)) = true
    rw [resultsOrderedAux]
    simpa [resultsOrderedAux_toolMsgs] using ih

/-! ## Concrete fixtures used by witnesses and counterexamples -/

/-- A sample tool call as the model would emit it. -/
def exToolCall : ToolCall :=
  { id := "call1", name := "search_papers", arguments := "topic ai" }

/-- A backend that requests `exToolCall` on the first round and answers
"FINAL" with no tool calls on later rounds. -/
def exBackendChain : Backend := fun _ msgs =>
  if msgs.length ≤ 1 then Except.ok { content := none, tool_calls := [exToolCall] }
  else Except.ok { content := some "FINAL", tool_calls := [] }

/-- A backend that always answers "hello!" without tool calls. -/
def exBackendFree : Backend := fun _ _ =>
  Except.ok { content := some "hello!", tool_calls := [] }

/-- A backend whose request always fails. -/
def exBackendFail : Backend := fun _ _ => Except.error "model down"

/-- A provider returning two text-bearing items around one with no text. -/
def exCallTool : CallTool := fun _ _ =>
  Except.ok ⟨MCPContent.items
    [ContentItem.textAttr "paperA", ContentItem.noText, ContentItem.textDict "paperB"]⟩

/-- A provider whose dispatch always raises. -/
def exCallToolFail : CallTool := fun _ _ => Except.error "tool exploded"

/-- A provider returning a single item with no text content. -/
def exCallToolNoText : CallTool := fun _ _ =>
  Except.ok ⟨MCPContent.items [ContentItem.noText]⟩

/-- The query result of running `exBackendChain` against `exCallTool`. -/
def exResult : QueryResult :=
  { messages := [Msg.user "find papers", Msg.assistant none [exToolCall],
      Msg.tool "call1" "paperApaperB"]
    printed := ["FINAL"]
    rounds := 2
    invoked := [("search_papers", "topic ai")] }

/-! ## Claim theorems -/

/-- C5: in every completed query run, the tool calls are invoked
sequentially in the exact order the model emitted them (`invoked` equals
the emitted calls in conversation order), each round's tool-result turns
follow the requesting assistant turn completely and in request order, and
every tool-result turn's identifier matches a tool request previously
emitted by an assistant turn of the same conversation. -/
theorem tool_call_ordering_and_correlation (backend : Backend) (ct : CallTool)
    (tools : List OpenAITool) (fuel : Nat) (q : String) (r : QueryResult)
    (h : process_query backend ct tools fuel q = Outcome.done r) :
    wellCorrelated r.messages = true ∧ resultsOrdered r.messages = true ∧
      r.invoked = emittedCalls r.messages := by
  obtain ⟨tail, hsh, hm, hi⟩ := process_query_done_shape backend ct tools fuel q r h
  refine ⟨?_, ?_, ?_⟩
  · rw [hm]
    show wellCorrelatedAux [] (Msg.user q :: tail) = true
    exact wellCorrelatedAux_rounds ct tail hsh []
  · rw [hm]
    show resultsOrderedAux [] (Msg.user q :: tail) = true
    exact resultsOrderedAux_rounds ct tail hsh
  · rw [hm, hi]
    rfl

theorem tool_call_ordering_witness :
    wellCorrelated exResult.messages = true ∧ resultsOrdered exResult.messages = true ∧
      exResult.invoked = emittedCalls exResult.messages :=
  tool_call_ordering_and_correlation exBackendChain exCallTool [] 5 "find papers"
    exResult (by decide)

/-- C4: against a model backend that always returns a tool-call-free
response, the loop reaches Done after exactly one round: one model call is
made (`rounds = 1`), no tool is invoked (`invoked = []`), and the
response's text is surfaced as the final answer. -/
theorem toolfree_terminates_one_round (backend : Backend) (ct : CallTool)
    (tools : List OpenAITool) (fuel : Nat) (q : String) (resp : ModelMessage)
    (hfree : ∀ msgs m, backend tools msgs = Except.ok m → m.tool_calls = [])
    (h1 : backend tools [Msg.user q] = Except.ok resp) :
    process_query backend ct tools (fuel + 1) q =
      Outcome.done ⟨[Msg.user q], printedOf resp.content, 1, []⟩ := by
  have h2 : resp.tool_calls = [] := hfree _ _ h1
  unfold process_query
  rw [h1]
  simp [processFrom, h2]

theorem toolfree_terminates_witness :
    process_query exBackendFree exCallTool [] 3 "hi" =
      Outcome.done ⟨[Msg.user "hi"], ["hello!"], 1, []⟩ := by
  have h := toolfree_terminates_one_round exBackendFree exCallTool [] 2 "hi"
    { content := some "hello!", tool_calls := [] }
    (fun msgs m hm => by cases hm; rfl) rfl
  simpa [printedOf] using h

/-- C3 (amended): when the backend requests one tool call in round 1 and
returns a tool-call-free answer in round 2, the conversation after Done
contains, in order, exactly the User turn, the Assistant turn carrying the
pending tool request, and the ToolResult turn; the final answer text is
surfaced (printed) but not appended to the conversation as a turn. -/
theorem chaining_conversation (backend : Backend) (ct : CallTool)
    (tools : List OpenAITool) (fuel : Nat) (q : String)
    (resp1 : ModelMessage) (tc : ToolCall) (res : ToolCallResult) (resp2 : ModelMessage)
    (h1 : backend tools [Msg.user q] = Except.ok resp1)
    (h2 : resp1.tool_calls = [tc])
    (h3 : ct tc.name tc.arguments = Except.ok res)
    (h4 : backend tools [Msg.user q, Msg.assistant resp1.content [tc],
        Msg.tool tc.id (extractText res.content)] = Except.ok resp2)
    (h5 : resp2.tool_calls = []) :
    process_query backend ct tools (fuel + 2) q =
      Outcome.done ⟨[Msg.user q, Msg.assistant resp1.content [tc],
          Msg.tool tc.id (extractText res.content)],
        printedOf resp2.content, 2, [(tc.name, tc.arguments)]⟩ := by
  unfold process_query
  rw [h1]
  show processFrom backend ct tools (fuel + 1 + 1) [Msg.user q] resp1 1 [] = _
  rw [processFrom_succ]
  rw [if_pos (by simp [h2])]
  rw [h2]
  simp only [execToolCalls, h3, List.cons_append, List.nil_append, List.append_nil,
    List.singleton_append]
  rw [h4]
  show processFrom backend ct tools (fuel + 1)
      [Msg.user q, Msg.assistant resp1.content [tc],
        Msg.tool tc.id (extractText res.content)] resp2 (1 + 1)
      [(tc.name, tc.arguments)] = _
  rw [processFrom_succ]
  rw [if_neg (by simp [h5])]

theorem chaining_conversation_witness :
    process_query exBackendChain exCallTool [] 6 "find papers" =
      Outcome.done ⟨[Msg.user "find papers", Msg.assistant none [exToolCall],
        Msg.tool "call1" "paperApaperB"], ["FINAL"], 2, [("search_papers", "topic ai")]⟩ := by
  have h := chaining_conversation exBackendChain exCallTool [] 4 "find papers"
    { content := none, tool_calls := [exToolCall] } exToolCall
    ⟨MCPContent.items [ContentItem.textAttr "paperA", ContentItem.noText,
      ContentItem.textDict "paperB"]⟩
    { content := some "FINAL", tool_calls := [] } rfl rfl rfl rfl rfl
  simpa [printedOf, exToolCall] using h

/-- C3 (counterexample): with a backend that requests a tool call in round
1 and answers "FINAL" in round 2, the conversation after Done has exactly
three turns — User, Assistant(pending request), ToolResult — and no
Assistant turn carrying the final answer text is in it, although "FINAL"
was surfaced. -/
theorem chaining_no_final_assistant_turn :
    process_query exBackendChain exCallTool [] 5 "find papers" = Outcome.done exResult ∧
    exResult.messages.length = 3 ∧
    exResult.printed = ["FINAL"] ∧
    ¬ (Msg.assistant (some "FINAL") [] ∈ exResult.messages) := by
  refine ⟨by decide, by decide, by decide, by decide⟩

/-- C2 (amended): an error raised during a tool invocation propagates out
of `process_query` — no ToolResult turn is appended and no further model
round occurs for that query — and is caught at the per-query level in
`chat_loop`, which reports it as plain text and continues with the next
input line. -/
theorem tool_error_aborts_query (backend : Backend) (ct : CallTool)
    (tools : List OpenAITool) (fuel : Nat) (q : String)
    (resp1 : ModelMessage) (tc : ToolCall) (rest : List ToolCall) (e : String)
    (h1 : backend tools [Msg.user q] = Except.ok resp1)
    (h2 : resp1.tool_calls = tc :: rest)
    (h3 : ct tc.name tc.arguments = Except.error e) :
    process_query backend ct tools (fuel + 1) q = Outcome.raised e ∧
    ∀ line ls, pyStrip line = q → pyLower q ≠ "quit" →
      chat_loop backend ct tools (fuel + 1) (line :: ls) =
        match chat_loop backend ct tools (fuel + 1) ls with
        | Outcome.done t => Outcome.done (QueryTrace.errored q ("\nError: " ++ e) :: t)
        | x => x := by
  have hpq : process_query backend ct tools (fuel + 1) q = Outcome.raised e := by
    unfold process_query
    rw [h1]
    show processFrom backend ct tools (fuel + 1) [Msg.user q] resp1 1 [] = _
    rw [processFrom_succ]
    rw [if_pos (by simp [h2])]
    rw [h2]
    simp only [execToolCalls, h3]
  refine ⟨hpq, ?_⟩
  intro line ls hstrip hq
  rw [chat_loop]
  simp only [hstrip]
  rw [if_neg hq, hpq]

theorem tool_error_aborts_witness :
    chat_loop exBackendChain exCallToolFail [] 4 ["  find papers  "] =
      Outcome.done [QueryTrace.errored "find papers" ("\nError: tool exploded")] := by
  have h := (tool_error_aborts_query exBackendChain exCallToolFail [] 3 "find papers"
    { content := none, tool_calls := [exToolCall] } exToolCall [] "tool exploded"
    rfl rfl rfl).2 "  find papers  " [] (by decide) (by decide)
  rw [h]
  decide

/-- C2 (counterexample): a tool invocation that raises aborts the query —
`process_query` ends in `raised`, not `done`, so the conversation never
gains a ToolResult turn for the request and no next model round happens;
the interactive loop records only the per-query error text. -/
theorem tool_error_counterexample :
    process_query exBackendChain exCallToolFail [] 5 "find papers" =
      Outcome.raised "tool exploded" ∧
    chat_loop exBackendChain exCallToolFail [] 5 ["find papers"] =
      Outcome.done [QueryTrace.errored "find papers" ("\nError: tool exploded")] := by
  refine ⟨by decide, by decide⟩

theorem chat_loop_cons (backend : Backend) (ct : CallTool) (tools : List OpenAITool)
    (fuel : Nat) (line : String) (rest : List String) :
    chat_loop backend ct tools fuel (line :: rest) =
      if pyLower (pyStrip line) = "quit" then Outcome.done []
      else
        match process_query backend ct tools fuel (pyStrip line) with
        | Outcome.done r =>
          match chat_loop backend ct tools fuel rest with
          | Outcome.done t => Outcome.done (QueryTrace.completed (pyStrip line) r :: t)
          | x => x
        | Outcome.raised e =>
          match chat_loop backend ct tools fuel rest with
          | Outcome.done t =>
            Outcome.done (QueryTrace.errored (pyStrip line) ("\nError: " ++ e) :: t)
          | x => x
        | Outcome.outOfFuel => Outcome.outOfFuel := rfl

theorem chat_loop_completed_fresh (backend : Backend) (ct : CallTool)
    (tools : List OpenAITool) (fuel : Nat) :
    ∀ lines t, chat_loop backend ct tools fuel lines = Outcome.done t →
      ∀ q r, QueryTrace.completed q r ∈ t →
        r.messages.head? = some (Msg.user q) := by
  intro lines
  induction lines with
  | nil =>
    intro t h q r hm
    cases h
    cases hm
  | cons line rest ih =>
    intro t h q r hm
    rw [chat_loop_cons] at h
    by_cases hquit : pyLower (pyStrip line) = "quit"
    · rw [if_pos hquit] at h
      cases h
      cases hm
    · rw [if_neg hquit] at h
      cases hpq : process_query backend ct tools fuel (pyStrip line) with
      | done r0 =>
        rw [hpq] at h
        cases hrec : chat_loop backend ct tools fuel rest with
        | done t2 =>
          rw [hrec] at h
          cases h
          rcases List.mem_cons.mp hm with hed | hmem
          · injection hed with hq1 hq2
            subst hq1
            subst hq2
            obtain ⟨tail, _, hmsg, _⟩ :=
              process_query_done_shape backend ct tools fuel _ r hpq
            rw [hmsg]
            rfl
          · exact ih t2 hrec q r hmem
        | raised e2 => rw [hrec] at h; cases h
        | outOfFuel => rw [hrec] at h; cases h
      | raised e =>
        rw [hpq] at h
        cases hrec : chat_loop backend ct tools fuel rest with
        | done t2 =>
          rw [hrec] at h
          cases h
          rcases List.mem_cons.mp hm with hed | hmem
          · cases hed
          · exact ih t2 hrec q r hmem
        | raised e2 => rw [hrec] at h; cases h
        | outOfFuel => rw [hrec] at h; cases h
      | outOfFuel => rw [hpq] at h; cases h

/-- C6: when the model backend call for a query fails, the error is caught
per query and reported as plain text in the trace, the interactive loop
continues with the remaining input lines exactly as it would process them
on their own, and every query completed afterwards runs on a fresh
conversation whose first turn is that query alone. -/
theorem backend_failure_per_query (backend : Backend) (ct : CallTool)
    (tools : List OpenAITool) (fuel : Nat) (l1 : String) (rest : List String)
    (e : String)
    (hq : pyLower (pyStrip l1) ≠ "quit")
    (hfail : backend tools [Msg.user (pyStrip l1)] = Except.error e) :
    chat_loop backend ct tools fuel (l1 :: rest) =
      (match chat_loop backend ct tools fuel rest with
       | Outcome.done t =>
         Outcome.done (QueryTrace.errored (pyStrip l1) ("\nError: " ++ e) :: t)
       | x => x) ∧
    (∀ t q r, chat_loop backend ct tools fuel rest = Outcome.done t →
      QueryTrace.completed q r ∈ t → r.messages.head? = some (Msg.user q)) := by
  have hpq : process_query backend ct tools fuel (pyStrip l1) = Outcome.raised e := by
    unfold process_query
    rw [hfail]
  constructor
  · rw [chat_loop_cons, if_neg hq, hpq]
  · intro t q r h hm
    exact chat_loop_completed_fresh backend ct tools fuel rest t h q r hm

theorem backend_failure_witness :
    chat_loop exBackendFail exCallTool [] 3 ["hi", "yo"] =
      Outcome.done [QueryTrace.errored "hi" ("\nError: model down"),
        QueryTrace.errored "yo" ("\nError: model down")] := by
  rw [(backend_failure_per_query exBackendFail exCallTool [] 3 "hi" ["yo"] "model down"
    (by decide) rfl).1]
  decide

/-- C7: the registry conversion produces exactly one schema object per
descriptor, each of type "function" carrying the descriptor's name,
description and input schema as parameters; with an empty capability list
the schema set is empty and a query completes tool-free. -/
theorem schema_conversion (descs : List ToolDescriptor) :
    (toSchema descs).length = descs.length ∧
    (∀ i, (toSchema descs).get? i = (descs.get? i).map (fun d =>
      (⟨"function", ⟨d.name, d.description, d.inputSchema⟩⟩ : OpenAITool))) ∧
    (descs = [] → toSchema descs = []) ∧
    (∀ backend ct fuel q resp, descs = [] →
      backend (toSchema descs) [Msg.user q] = Except.ok resp →
      resp.tool_calls = [] →
      process_query backend ct (toSchema descs) (fuel + 1) q =
        Outcome.done ⟨[Msg.user q], printedOf resp.content, 1, []⟩) := by
  refine ⟨by simp [toSchema], ?_, ?_, ?_⟩
  · intro i
    simp [toSchema]
  · intro h
    simp [toSchema, h]
  · intro backend ct fuel q resp hdescs h1 h2
    unfold process_query
    rw [h1]
    show processFrom backend ct (toSchema descs) (fuel + 1) [Msg.user q] resp 1 [] = _
    rw [processFrom_succ, if_neg (by simp [h2])]

theorem schema_conversion_witness :
    toSchema [] = ([] : List OpenAITool) ∧
    process_query exBackendFree exCallTool (toSchema []) 3 "hi" =
      Outcome.done ⟨[Msg.user "hi"], ["hello!"], 1, []⟩ := by
  refine ⟨(schema_conversion []).2.2.1 rfl, ?_⟩
  have h := (schema_conversion []).2.2.2 exBackendFree exCallTool 2 "hi"
    { content := some "hello!", tool_calls := [] } rfl rfl rfl
  simpa [printedOf] using h

/-- C8 (amended): the input line is first stripped of surrounding
whitespace; if the stripped input equals "quit" case-insensitively the
interactive loop ends cleanly without processing a query, and otherwise
the stripped input is processed as a new query on a fresh conversation
seeded with exactly that query. -/
theorem quit_check_on_stripped_input (backend : Backend) (ct : CallTool)
    (tools : List OpenAITool) (fuel : Nat) (line : String) (rest : List String) :
    (pyLower (pyStrip line) = "quit" →
      chat_loop backend ct tools fuel (line :: rest) = Outcome.done []) ∧
    (pyLower (pyStrip line) ≠ "quit" →
      ∀ r, process_query backend ct tools fuel (pyStrip line) = Outcome.done r →
        r.messages.head? = some (Msg.user (pyStrip line)) ∧
        chat_loop backend ct tools fuel (line :: rest) =
          (match chat_loop backend ct tools fuel rest with
           | Outcome.done t =>
             Outcome.done (QueryTrace.completed (pyStrip line) r :: t)
           | x => x)) := by
  constructor
  · intro h
    rw [chat_loop_cons, if_pos h]
  · intro h r hr
    constructor
    · obtain ⟨tail, _, hm, _⟩ :=
        process_query_done_shape backend ct tools fuel _ r hr
      rw [hm]
      rfl
    · rw [chat_loop_cons, if_neg h, hr]

theorem quit_check_witness :
    chat_loop exBackendFree exCallTool [] 3 ["QUIT", "x"] = Outcome.done [] ∧
    (QueryResult.mk [Msg.user "hi"] ["hello!"] 1 []).messages.head? =
      some (Msg.user "hi") ∧
    chat_loop exBackendFree exCallTool [] 3 ["hi"] =
      Outcome.done [QueryTrace.completed "hi"
        (QueryResult.mk [Msg.user "hi"] ["hello!"] 1 [])] := by
  have h := (quit_check_on_stripped_input exBackendFree exCallTool [] 3 "hi" []).2
    (by decide) (QueryResult.mk [Msg.user "hi"] ["hello!"] 1 []) (by decide)
  refine ⟨(quit_check_on_stripped_input exBackendFree exCallTool [] 3 "QUIT" ["x"]).1
    (by decide), h.1, ?_⟩
  rw [h.2]
  decide

/-- C8 (counterexample): the raw input " quit " is not the literal word
quit in any letter case, yet the session ends at it with no query
processed (the trace is empty and "hello" is never reached). -/
theorem quit_whitespace_counterexample :
    chat_loop exBackendFree exCallTool [] 3 [" quit ", "hello"] = Outcome.done [] ∧
    pyLower " quit " ≠ "quit" := by
  refine ⟨by decide, by decide⟩

theorem specConcatTexts_eq_empty (l : List ContentItem)
    (hl : ∀ item ∈ l, itemText item = none) : specConcatTexts l = "" := by
  induction l with
  | nil => rfl
  | cons item rest ih =>
    have h1 := hl item (List.mem_cons_self item rest)
    have h2 := ih (fun it hit => hl it (List.mem_cons_of_mem item hit))
    simp [specConcatTexts, h1, h2]

/-- C9: a sequence result none of whose items exposes text content
normalizes to the empty string, and the round still appends a ToolResult
turn with empty-string content for the request. -/
theorem no_text_items_empty_payload (l : List ContentItem)
    (hl : ∀ item ∈ l, itemText item = none)
    (ct : CallTool) (msgs : List Msg) (inv : List (String × String)) (tc : ToolCall)
    (hct : ct tc.name tc.arguments = Except.ok ⟨MCPContent.items l⟩) :
    extractText (MCPContent.items l) = "" ∧
    execToolCalls ct msgs inv [tc] =
      Except.ok (msgs ++ [Msg.tool tc.id ""], inv ++ [(tc.name, tc.arguments)]) := by
  have hext : extractText (MCPContent.items l) = "" := by
    show extractLoop "" l = ""
    rw [extractLoop_eq_append l "", specConcatTexts_eq_empty l hl]
    rfl
  refine ⟨hext, ?_⟩
  simp only [execToolCalls, hct, hext]

theorem no_text_items_witness :
    extractText (MCPContent.items [ContentItem.noText]) = "" ∧
    execToolCalls exCallToolNoText [Msg.user "q"] [] [exToolCall] =
      Except.ok ([Msg.user "q", Msg.tool "call1" ""],
        [("search_papers", "topic ai")]) := by
  have h := no_text_items_empty_payload [ContentItem.noText] (by decide)
    exCallToolNoText [Msg.user "q"] [] exToolCall rfl
  exact ⟨h.1, by rw [h.2]; rfl⟩

theorem dictGet_dictInsert_self (k : String) (v : PaperInfo) :
    ∀ m, dictGet (dictInsert m k v) k = some v := by
  intro m
  induction m with
  | nil => simp [dictInsert, dictGet]
  | cons p rest ih =>
    by_cases hp : p.1 = k
    · simp [dictInsert, hp, dictGet]
    · simp [dictInsert, hp, dictGet, ih]

theorem dictGet_dictInsert_ne (k k' : String) (v : PaperInfo) (hne : k' ≠ k) :
    ∀ m, dictGet (dictInsert m k v) k' = dictGet m k' := by
  intro m
  induction m with
  | nil =>
    simp [dictInsert, dictGet]
    exact fun h => hne h.symm
  | cons p rest ih =>
    by_cases hp : p.1 = k
    · have h1 : ¬ (k = k') := fun h => hne h.symm
      have h2 : ¬ (p.1 = k') := fun h => hne (hp ▸ h.symm ▸ rfl)
      simp [dictInsert, hp, dictGet, h1, h2]
    · simp [dictInsert, hp, dictGet, ih]

theorem searchLoop_ids (papers : List ArxivPaper) :
    ∀ info ids, (searchLoop info ids papers).2 =
      ids ++ papers.map (fun p => p.short_id) := by
  induction papers with
  | nil => intro info ids; simp [searchLoop]
  | cons p rest ih => intro info ids; simp [searchLoop, ih]

theorem searchLoop_frame (papers : List ArxivPaper) :
    ∀ info ids k, k ∉ papers.map (fun p => p.short_id) →
      dictGet (searchLoop info ids papers).1 k = dictGet info k := by
  induction papers with
  | nil => intro info ids k _; rfl
  | cons p rest ih =>
    intro info ids k hk
    simp only [List.map_cons, List.mem_cons, not_or] at hk
    show dictGet (searchLoop (dictInsert info p.short_id (paperRecord p))
      (ids ++ [p.short_id]) rest).1 k = _
    rw [ih _ _ k hk.2, dictGet_dictInsert_ne _ _ _ hk.1]

theorem searchLoop_preserves_some (papers : List ArxivPaper) :
    ∀ info ids k, (dictGet info k).isSome = true →
      (dictGet (searchLoop info ids papers).1 k).isSome = true := by
  induction papers with
  | nil => intro info ids k h; exact h
  | cons p rest ih =>
    intro info ids k h
    apply ih
    by_cases hk : k = p.short_id
    · subst hk
      rw [dictGet_dictInsert_self]
      rfl
    · rw [dictGet_dictInsert_ne _ _ _ hk]
      exact h

theorem searchLoop_mem_some (papers : List ArxivPaper) :
    ∀ info ids p, p ∈ papers →
      (dictGet (searchLoop info ids papers).1 p.short_id).isSome = true := by
  induction papers with
  | nil => intro info ids p h; cases h
  | cons p0 rest ih =>
    intro info ids p hp
    rcases List.mem_cons.mp hp with he | hm
    · subst he
      have h0 : (dictGet (dictInsert info p.short_id (paperRecord p)) p.short_id).isSome
          = true := by
        rw [dictGet_dictInsert_self]
        rfl
      exact searchLoop_preserves_some rest _ _ _ h0
    · exact ih _ _ p hm

/-- C10: `search_papers` preserves every record of the loaded store whose
identifier is not among the newly fetched papers, every fetched paper ends
up present in the written store, and the returned list is exactly the
fetched papers' identifiers in fetch order. -/
theorem search_papers_frame (papers : List ArxivPaper)
    (store : List (String × PaperInfo)) (id0 : String) (v : PaperInfo)
    (hmem : dictGet store id0 = some v)
    (hnot : id0 ∉ papers.map (fun p => p.short_id)) :
    dictGet (search_papers papers store).1 id0 = some v ∧
    (search_papers papers store).2 = papers.map (fun p => p.short_id) ∧
    ∀ p ∈ papers, (dictGet (search_papers papers store).1 p.short_id).isSome = true := by
  refine ⟨?_, ?_, ?_⟩
  · rw [search_papers, searchLoop_frame papers store [] id0 hnot, hmem]
  · rw [search_papers, searchLoop_ids]
    rfl
  · intro p hp
    exact searchLoop_mem_some papers store [] p hp

/-- An existing record in the topic store used by the witness. -/
def exOldInfo : PaperInfo :=
  ⟨"Old paper", ["Alice"], "old summary", "urlO", "2020-01-01"⟩

/-- A freshly fetched paper used by the witness. -/
def exNewPaper : ArxivPaper :=
  ⟨"2401.0001v1", "New paper", ["Bob"], "new summary", "urlN", "2024-01-01"⟩

theorem search_papers_witness :
    dictGet (search_papers [exNewPaper] [("1706.0001v1", exOldInfo)]).1
      "1706.0001v1" = some exOldInfo ∧
    (search_papers [exNewPaper] [("1706.0001v1", exOldInfo)]).2 = ["2401.0001v1"] ∧
    (dictGet (search_papers [exNewPaper] [("1706.0001v1", exOldInfo)]).1
      "2401.0001v1").isSome = true := by
  have h := search_papers_frame [exNewPaper] [("1706.0001v1", exOldInfo)]
    "1706.0001v1" exOldInfo (by decide) (by decide)
  exact ⟨h.1, by rw [h.2.1]; rfl, h.2.2 exNewPaper (List.mem_cons_self _ _)⟩

end MCPDemo
